import Mathlib

set_option autoImplicit false

/-!
Shallow embedding of the PTAMM `PatchFinder` class (src/include/PTAMM/PatchFinder.h).
Intensities are `Int`, continuous quantities are `Rat`.  The header only declares
most member functions; their bodies are modelled from the specification where noted.
-/

namespace PTAMM

/-- Truncation of a rational toward zero: the semantics of a C-style `(int)` cast
applied to a floating-point value, as used in `GetCoarsePos`. -/
def truncToZero (q : Rat) : Int :=
  if 0 ≤ q then ⌊q⌋ else ⌈q⌉

/-- Modelled from the spec: the level-to-pixel-scale mapping of `LevelHelpers.h`
(not under src/): each pyramid level is twice as coarse as the previous one. -/
def LevelScale (n : Nat) : Int :=
  2 ^ n

/-- A single pyramid-level image: a width, a height and an intensity sample at
every integer pixel position. -/
structure Img where
  w : Int
  h : Int
  pix : Int × Int → Int

/-- A pixel position lies inside the image bounds. -/
def inImage (im : Img) (p : Int × Int) : Prop :=
  0 ≤ p.1 ∧ p.1 < im.w ∧ 0 ≤ p.2 ∧ p.2 < im.h

instance (im : Img) (p : Int × Int) : Decidable (inImage im p) := by
  unfold inImage; infer_instance

/-- The list of all (row, column) index pairs of an n-by-n grid. -/
def grid (n : Nat) : List (Nat × Nat) :=
  (List.range n).flatMap (fun r => (List.range n).map (fun c => (r, c)))

/-- A 2-by-2 matrix of rationals, row major. -/
structure Mat2 where
  a : Rat
  b : Rat
  c : Rat
  d : Rat
deriving DecidableEq

/-- Determinant of a 2-by-2 matrix. -/
def mat2det (m : Mat2) : Rat :=
  m.a * m.d - m.b * m.c

/-- Apply a 2-by-2 matrix to a 2-vector. -/
def mat2apply (m : Mat2) (v : Rat × Rat) : Rat × Rat :=
  (m.a * v.1 + m.b * v.2, m.c * v.1 + m.d * v.2)

/-- Inverse of a 2-by-2 matrix by the adjugate formula (meaningful when the
determinant is nonzero). -/
def mat2inv (m : Mat2) : Mat2 :=
  let d := mat2det m
  ⟨m.d / d, -m.b / d, -m.c / d, m.a / d⟩

/-- Scale every entry of a 2-by-2 matrix. -/
def mat2scale (s : Rat) (m : Mat2) : Mat2 :=
  ⟨s * m.a, s * m.b, s * m.c, s * m.d⟩

/-- A 3-by-3 matrix of rationals, row major. -/
structure Mat3 where
  m00 : Rat
  m01 : Rat
  m02 : Rat
  m10 : Rat
  m11 : Rat
  m12 : Rat
  m20 : Rat
  m21 : Rat
  m22 : Rat
deriving DecidableEq

/-- Determinant of a 3-by-3 matrix by cofactor expansion along the first row. -/
def det3 (m : Mat3) : Rat :=
  m.m00 * (m.m11 * m.m22 - m.m12 * m.m21)
    - m.m01 * (m.m10 * m.m22 - m.m12 * m.m20)
    + m.m02 * (m.m10 * m.m21 - m.m11 * m.m20)

/-- Apply a 3-by-3 matrix to a 3-vector. -/
def mat3apply (m : Mat3) (v : Rat × Rat × Rat) : Rat × Rat × Rat :=
  (m.m00 * v.1 + m.m01 * v.2.1 + m.m02 * v.2.2,
   m.m10 * v.1 + m.m11 * v.2.1 + m.m12 * v.2.2,
   m.m20 * v.1 + m.m21 * v.2.1 + m.m22 * v.2.2)

/-- Modelled from the spec: inversion of the 3-by-3 approximate Hessian of
`MakeSubPixTemplate` (body not under src/); a singular matrix cannot be
inverted, which is surfaced as `none` (a refinement precondition failure). -/
def invert3 (m : Mat3) : Option Mat3 :=
  if det3 m = 0 then none
  else
    let d := det3 m
    some ⟨(m.m11 * m.m22 - m.m12 * m.m21) / d, (m.m02 * m.m21 - m.m01 * m.m22) / d,
          (m.m01 * m.m12 - m.m02 * m.m11) / d, (m.m12 * m.m20 - m.m10 * m.m22) / d,
          (m.m00 * m.m22 - m.m02 * m.m20) / d, (m.m02 * m.m10 - m.m00 * m.m12) / d,
          (m.m10 * m.m21 - m.m11 * m.m20) / d, (m.m01 * m.m20 - m.m00 * m.m21) / d,
          (m.m00 * m.m11 - m.m01 * m.m10) / d⟩

/-- Map a fallible function over a list, failing when it fails on any element.
This is the shape of the template-synthesis and refinement sampling loops,
which abort as soon as a required source pixel is out of bounds. -/
def tryMap {α β : Type} (f : α → Option β) : List α → Option (List β)
  | [] => some []
  | a :: as =>
    match f a with
    | none => none
    | some b => (tryMap f as).map (fun bs => b :: bs)

/-- Modelled from the spec: bilinear interpolation of the four neighboring
source pixels at a fractional position; `none` when any required neighbor lies
outside the image bounds. -/
def bilinearSample (im : Img) (x y : Rat) : Option Rat :=
  let x0 := ⌊x⌋
  let y0 := ⌊y⌋
  if 0 ≤ x0 ∧ x0 + 1 < im.w ∧ 0 ≤ y0 ∧ y0 + 1 < im.h then
    let fx : Rat := x - x0
    let fy : Rat := y - y0
    some ((1 - fx) * (1 - fy) * (im.pix (x0, y0) : Rat)
        + fx * (1 - fy) * (im.pix (x0 + 1, y0) : Rat)
        + (1 - fx) * fy * (im.pix (x0, y0 + 1) : Rat)
        + fx * fy * (im.pix (x0 + 1, y0 + 1) : Rat))
  else none

/-- A keyframe as consumed by the patch finder: per-level pixel grids and
per-level corner-feature positions. -/
structure KeyFrame where
  levels : Nat → Img
  corners : Nat → List (Int × Int)

/-- A map point as consumed by the patch finder: an identity used for the
last-template cache, the source keyframe level image it was observed in, the
observation's pixel position at that level, and the source pyramid level. -/
structure MapPoint where
  id : Nat
  srcImg : Img
  irCenter : Int × Int
  nSourceLevel : Nat

/-- The mutable state of a `PatchFinder` object: the protected members of the
class declared in PatchFinder.h. -/
structure PatchFinder where
  mnPatchSize : Nat
  mnMaxSSD : Int
  mnTemplateSum : Int
  mnTemplateSumSq : Int
  mimTemplate : List (List Int)
  mimJacs : List (Rat × Rat)
  mm2WarpInverse : Mat2
  mnSearchLevel : Nat
  mm3HInv : Option Mat3
  mv2SubPixPos : Rat × Rat
  mdMeanDiff : Rat
  mirPredictedPos : Int × Int
  mv2CoarsePos : Rat × Rat
  mbFound : Bool
  mbTemplateBad : Bool
  mpLastTemplateMapPoint : Option Nat
  mm2LastWarpMatrix : Mat2

/-- From the source (inline in PatchFinder.h): `GetCoarsePos` returns
`ImageRef((int) mv2CoarsePos[0], (int) mv2CoarsePos[1])`. -/
def GetCoarsePos (s : PatchFinder) : Int × Int :=
  (truncToZero s.mv2CoarsePos.1, truncToZero s.mv2CoarsePos.2)

/-- From the source (inline in PatchFinder.h): `GetCoarsePosAsVector` returns
`mv2CoarsePos`. -/
def GetCoarsePosAsVector (s : PatchFinder) : Rat × Rat :=
  s.mv2CoarsePos

/-- From the source (inline in PatchFinder.h): `TemplateBad` returns
`mbTemplateBad`. -/
def TemplateBad (s : PatchFinder) : Bool :=
  s.mbTemplateBad

/-- From the source (inline in PatchFinder.h): `GetCov` returns
`LevelScale(mnSearchLevel) * Identity`. -/
def GetCov (s : PatchFinder) : Matrix (Fin 2) (Fin 2) Rat :=
  (LevelScale s.mnSearchLevel : Rat) • (1 : Matrix (Fin 2) (Fin 2) Rat)

/-- From the source (inline in PatchFinder.h): `GetLevel` returns
`mnSearchLevel`. -/
def GetLevel (s : PatchFinder) : Nat :=
  s.mnSearchLevel

/-- From the source (inline in PatchFinder.h): `GetLevelScale` returns
`LevelScale(mnSearchLevel)`. -/
def GetLevelScale (s : PatchFinder) : Int :=
  LevelScale s.mnSearchLevel

/-- Template pixel at (row, column), with an irrelevant default outside the
stored rows. -/
def tAt (rows : List (List Int)) (p : Nat × Nat) : Int :=
  (rows.getD p.1 []).getD p.2 0

/-- Pixel sum of a template, as cached in `mnTemplateSum` by
`MakeTemplateSums`. -/
def templateSum (rows : List (List Int)) : Int :=
  (rows.map (fun row => row.sum)).sum

/-- Squared-pixel sum of a template, as cached in `mnTemplateSumSq` by
`MakeTemplateSums`. -/
def templateSumSq (rows : List (List Int)) : Int :=
  (rows.map (fun row => (row.map (fun v => v * v)).sum)).sum

/-- Modelled from the spec: one warped-template pixel (body of
`MakeTemplateCoarseCont` is not under src/).  The template offset from the
quantized center is inverse-mapped through the warp matrix to a fractional
source-pixel location, which is sampled bilinearly; the intensity is cast to a
byte by truncation. -/
def synthPixelWarp (src : Img) (center : Int × Int) (m : Mat2) (n : Nat)
    (p : Nat × Nat) : Option Int :=
  let off : Rat × Rat := ((((p.2 : Int) - (n / 2 : Int) : Int) : Rat),
                          (((p.1 : Int) - (n / 2 : Int) : Int) : Rat))
  let sp := mat2apply m off
  (bilinearSample src ((center.1 : Rat) + sp.1) ((center.2 : Rat) + sp.2)).map truncToZero

/-- Modelled from the spec: one identity-warp template pixel (body of
`MakeTemplateCoarseNoWarp` is not under src/): a direct axis-aligned copy of
the source pixel, failing when it lies outside the source level's bounds. -/
def synthPixelNoWarp (src : Img) (center : Int × Int) (n : Nat)
    (p : Nat × Nat) : Option Int :=
  let q : Int × Int := (center.1 + (p.2 : Int) - (n / 2 : Int),
                        center.2 + (p.1 : Int) - (n / 2 : Int))
  if inImage src q then some (src.pix q) else none

/-- Synthesize all n rows of an n-by-n template from a per-pixel sampler,
aborting when any required source pixel is unavailable. -/
def synthRows (f : Nat × Nat → Option Int) (n : Nat) : Option (List (List Int)) :=
  tryMap (fun r => tryMap (fun c => f (r, c)) (List.range n)) (List.range n)

/-- Modelled from the spec: common tail of all three template-synthesis modes.
On failure only the bad-template flag is set (partially written data is never
published); on success the template is stored, the flag is cleared, and the
sum and squared-sum caches of `MakeTemplateSums` are filled. -/
def SetTemplate (s : PatchFinder) (result : Option (List (List Int))) : PatchFinder :=
  match result with
  | none => { s with mbTemplateBad := true }
  | some rows =>
    { s with mbTemplateBad := false, mimTemplate := rows,
             mnTemplateSum := templateSum rows,
             mnTemplateSumSq := templateSumSq rows }

/-- Modelled from the spec: the warped-mode template regeneration performed by
`MakeTemplateCoarseCont` when the cache does not match. -/
def RefreshTemplateWarped (s : PatchFinder) (p : MapPoint) : PatchFinder :=
  SetTemplate s
    (synthRows (synthPixelWarp p.srcImg p.irCenter s.mm2WarpInverse s.mnPatchSize)
      s.mnPatchSize)

/-- Modelled from the spec: `MakeTemplateCoarseCont` (body not under src/).
If the last-used map point and warp matrix are unchanged the stored template
is reused; otherwise the template is regenerated through the warp and the
cache fields are updated. -/
def MakeTemplateCoarseCont (s : PatchFinder) (p : MapPoint) : PatchFinder :=
  if s.mpLastTemplateMapPoint = some p.id ∧ s.mm2LastWarpMatrix = s.mm2WarpInverse then s
  else
    { RefreshTemplateWarped s p with
      mpLastTemplateMapPoint := some p.id, mm2LastWarpMatrix := s.mm2WarpInverse }

/-- Modelled from the spec: the level-selection loop of
`CalcSearchLevelAndWarpMatrix` (body not under src/): while the warp
determinant rescaled to the candidate level is not close to 1 (more than one
octave above, i.e. above 3) and a coarser level exists, move one level up,
dividing the determinant by 4. -/
def chooseLevelAux : Nat → Rat → Nat → Nat
  | 0, _, l => l
  | fuel + 1, d, l => if 3 < d then chooseLevelAux fuel (d / 4) (l + 1) else l

/-- Modelled from the spec: `CalcSearchLevelAndWarpMatrix` (body not under
src/).  `m2` is the 2-by-2 current-view pixel Jacobian combining the supplied
projection derivatives with the point's geometry; a non-positive determinant
is degenerate and yields the sentinel -1, otherwise the search level is chosen
by the rescaling loop (clamped to `maxLevel`), and the inverse warp is stored
together with the level. -/
def CalcSearchLevelAndWarpMatrix (s : PatchFinder) (m2 : Mat2) (maxLevel : Nat) :
    PatchFinder × Int :=
  if mat2det m2 ≤ 0 then (s, -1)
  else
    let l := chooseLevelAux maxLevel (mat2det m2) 0
    ({ s with mnSearchLevel := l,
              mm2WarpInverse := mat2scale ((LevelScale l : Int) : Rat) (mat2inv m2) },
     (l : Int))

/-- Modelled from the spec: `MakeTemplateCoarse` (body not under src/) first
calculates the warp and level, then synthesizes the template through
`MakeTemplateCoarseCont`. -/
def MakeTemplateCoarse (s : PatchFinder) (p : MapPoint) (m2 : Mat2) (maxLevel : Nat) :
    PatchFinder :=
  MakeTemplateCoarseCont (CalcSearchLevelAndWarpMatrix s m2 maxLevel).1 p

/-- Modelled from the spec: the keyframe/level/position overload of
`MakeTemplateCoarseNoWarp` (body not under src/): an identity-warp copy from
the given keyframe level around the given position. -/
def MakeTemplateCoarseNoWarpKF (s : PatchFinder) (k : KeyFrame) (nLevel : Nat)
    (irLevelPos : Int × Int) : PatchFinder :=
  SetTemplate { s with mnSearchLevel := nLevel }
    (synthRows (synthPixelNoWarp (k.levels nLevel) irLevelPos s.mnPatchSize) s.mnPatchSize)

/-- Modelled from the spec: the map-point overload of
`MakeTemplateCoarseNoWarp` (body not under src/): an identity-warp copy from
the point's stored source pixel and level. -/
def MakeTemplateCoarseNoWarpMP (s : PatchFinder) (p : MapPoint) : PatchFinder :=
  SetTemplate { s with mnSearchLevel := p.nSourceLevel }
    (synthRows (synthPixelNoWarp p.srcImg p.irCenter s.mnPatchSize) s.mnPatchSize)

/-- Image pixel of the patch centered (by the quantized template center) at
`ir`, at template position `p` = (row, column). -/
def imPixAt (im : Img) (ir : Int × Int) (n : Nat) (p : Nat × Nat) : Int :=
  im.pix (ir.1 + (p.2 : Int) - (n / 2 : Int), ir.2 + (p.1 : Int) - (n / 2 : Int))

/-- Modelled from the spec: the zero-mean SSD score of `ZMSSDAtPoint` (body
not under src/): the sum, over template pixels, of the squared difference of
the mean-shifted image and template intensities. -/
def zmssdScore (rows : List (List Int)) (n : Nat) (im : Img) (ir : Int × Int) : Rat :=
  let cnt : Rat := ((n * n : Nat) : Int)
  let tMean : Rat := ((((grid n).map (fun p => tAt rows p)).sum : Int) : Rat) / cnt
  let iMean : Rat := ((((grid n).map (fun p => imPixAt im ir n p)).sum : Int) : Rat) / cnt
  ((grid n).map (fun p =>
    (((imPixAt im ir n p : Int) : Rat) - iMean - (((tAt rows p : Int) : Rat) - tMean)) ^ 2)).sum

/-- `ZMSSDAtPoint` evaluated with the engine's current template. -/
def ZMSSDAtPoint (s : PatchFinder) (im : Img) (ir : Int × Int) : Rat :=
  zmssdScore s.mimTemplate s.mnPatchSize im ir

/-- A corner candidate lies within the search radius of the predicted center,
both expressed at the search level, by squared Euclidean distance. -/
def inRadius (centerL : Rat × Rat) (rL : Rat) (c : Int × Int) : Prop :=
  ((c.1 : Rat) - centerL.1) ^ 2 + ((c.2 : Rat) - centerL.2) ^ 2 ≤ rL ^ 2

instance (centerL : Rat × Rat) (rL : Rat) (c : Int × Int) :
    Decidable (inRadius centerL rL c) := by
  unfold inRadius; infer_instance

/-- Modelled from the spec: the candidate loop of `FindPatchCoarse` (body not
under src/): scan the corner list, keeping the minimum-scoring candidate among
those within the search radius, together with its score. -/
def bestCandidate (score : Int × Int → Rat) (ok : Int × Int → Bool) :
    List (Int × Int) → Option ((Int × Int) × Rat)
  | [] => none
  | c :: cs =>
    let rest := bestCandidate score ok cs
    if ok c then
      match rest with
      | none => some (c, score c)
      | some (b, bs) => if score c < bs then some (c, score c) else some (b, bs)
    else rest

/-- The radius test of `FindPatchCoarse`: the level-zero predicted center and
radius are converted to the search level's pixel scale, and the candidate is
compared by squared Euclidean distance. -/
def coarseOK (s : PatchFinder) (ir : Int × Int) (nRange : Nat) (c : Int × Int) : Bool :=
  let sc : Rat := ((LevelScale s.mnSearchLevel : Int) : Rat)
  decide (inRadius ((ir.1 : Rat) / sc, (ir.2 : Rat) / sc) ((nRange : Rat) / sc) c)

/-- The zero-mean SSD score of a candidate corner at the search level, with
the engine's current template. -/
def coarseScore (s : PatchFinder) (kf : KeyFrame) (c : Int × Int) : Rat :=
  zmssdScore s.mimTemplate s.mnPatchSize (kf.levels s.mnSearchLevel) c

/-- The candidate set of `FindPatchCoarse`: the keyframe's corner features at
the search level that lie within the (level-converted) radius of the predicted
center. -/
def coarseCands (s : PatchFinder) (ir : Int × Int) (kf : KeyFrame) (nRange : Nat) :
    List (Int × Int) :=
  (kf.corners s.mnSearchLevel).filter (coarseOK s ir nRange)

/-- Modelled from the spec: `FindPatchCoarse` (body not under src/).  Inputs
are level-zero coordinates; the center and radius are converted to the search
level's pixel scale, corner features at that level within the radius are
scored by zero-mean SSD, and the minimum-scoring candidate is accepted when
its score does not exceed the `mnMaxSSD` ceiling, recording its position back
in level-zero coordinates. -/
def FindPatchCoarse (s : PatchFinder) (ir : Int × Int) (kf : KeyFrame) (nRange : Nat) :
    PatchFinder :=
  let sc : Rat := ((LevelScale s.mnSearchLevel : Int) : Rat)
  let s1 := { s with mirPredictedPos := ir }
  match bestCandidate (coarseScore s kf) (coarseOK s ir nRange)
      (kf.corners s.mnSearchLevel) with
  | none => { s1 with mbFound := false }
  | some (b, bs) =>
    if bs ≤ (s.mnMaxSSD : Rat) then
      { s1 with mbFound := true,
                mv2CoarsePos := (sc * (b.1 : Rat), sc * (b.2 : Rat)) }
    else { s1 with mbFound := false }

/-- Modelled from the spec: the template gradient at a pixel by central
differences along each axis, zero at the border where a neighbor is missing. -/
def jacAt (rows : List (List Int)) (n : Nat) (p : Nat × Nat) : Rat × Rat :=
  if 1 ≤ p.1 ∧ p.1 + 1 < n ∧ 1 ≤ p.2 ∧ p.2 + 1 < n then
    (((tAt rows (p.1, p.2 + 1) : Rat) - (tAt rows (p.1, p.2 - 1) : Rat)) / 2,
     ((tAt rows (p.1 + 1, p.2) : Rat) - (tAt rows (p.1 - 1, p.2) : Rat)) / 2)
  else (0, 0)

/-- Modelled from the spec: the 3-by-3 approximate Hessian of
`MakeSubPixTemplate` (body not under src/): the sum over template pixels of
the outer product of the augmented per-pixel Jacobian (gx, gy, 1). -/
def hessianOf (rows : List (List Int)) (n : Nat) : Mat3 :=
  (grid n).foldl
    (fun m p =>
      let j := jacAt rows n p
      ⟨m.m00 + j.1 * j.1, m.m01 + j.1 * j.2, m.m02 + j.1,
       m.m10 + j.2 * j.1, m.m11 + j.2 * j.2, m.m12 + j.2,
       m.m20 + j.1, m.m21 + j.2, m.m22 + 1⟩)
    ⟨0, 0, 0, 0, 0, 0, 0, 0, 0⟩

/-- Modelled from the spec: `MakeSubPixTemplate` (body not under src/):
populate the Jacobian image and store the inverse of the accumulated Hessian,
or `none` when that Hessian is singular (refinement precondition failure). -/
def MakeSubPixTemplate (s : PatchFinder) : PatchFinder :=
  { s with mimJacs := (grid s.mnPatchSize).map (jacAt s.mimTemplate s.mnPatchSize),
           mm3HInv := invert3 (hessianOf s.mimTemplate s.mnPatchSize) }

/-- The current sub-pixel position converted from level-zero coordinates to
the search level's pixel scale. -/
def subPixCenter (s : PatchFinder) : Rat × Rat :=
  (s.mv2SubPixPos.1 / ((LevelScale s.mnSearchLevel : Int) : Rat),
   s.mv2SubPixPos.2 / ((LevelScale s.mnSearchLevel : Int) : Rat))

/-- One bilinear sample of the target image at the template offset `p` from
the current sub-pixel center (expressed at the search level). -/
def subPixSample (im : Img) (center : Rat × Rat) (n : Nat) (p : Nat × Nat) : Option Rat :=
  bilinearSample im (center.1 + (((p.2 : Int) - (n / 2 : Int) : Int) : Rat))
    (center.2 + (((p.1 : Int) - (n / 2 : Int) : Int) : Rat))

/-- Modelled from the spec: project the per-pixel residuals (sample minus
template pixel minus running mean difference) through the augmented Jacobian
(gx, gy, 1), accumulating a 3-vector. -/
def gradSum (rows : List (List Int)) (n : Nat) (meanDiff : Rat) (vs : List Rat) :
    Rat × Rat × Rat :=
  (((grid n).zip vs).map (fun q =>
      let j := jacAt rows n q.1
      let r := q.2 - (tAt rows q.1 : Rat) - meanDiff
      (r * j.1, r * j.2, r))).foldl
    (fun a b => (a.1 + b.1, a.2.1 + b.2.1, a.2.2 + b.2.2)) (0, 0, 0)

/-- Modelled from the spec: a single inverse-composition iteration,
`IterateSubPix` (body not under src/).  Samples the target bilinearly at every
template offset around the current sub-pixel position; any out-of-image sample
yields the negative sentinel -1.  Otherwise the Gauss-Newton update
(dx, dy, dMean) from the precomputed inverse Hessian is applied to the
position (rescaled to level zero) and the running mean difference, and the
squared magnitude of the positional update is returned. -/
def IterateSubPix (s : PatchFinder) (kf : KeyFrame) : Rat × PatchFinder :=
  match s.mm3HInv with
  | none => (-1, s)
  | some hinv =>
    let n := s.mnPatchSize
    let im := kf.levels s.mnSearchLevel
    let sc : Rat := ((LevelScale s.mnSearchLevel : Int) : Rat)
    match tryMap (subPixSample im (subPixCenter s) n) (grid n) with
    | none => (-1, s)
    | some vs =>
      let upd := mat3apply hinv (gradSum s.mimTemplate n s.mdMeanDiff vs)
      (upd.1 ^ 2 + upd.2.1 ^ 2,
       { s with
         mv2SubPixPos := (s.mv2SubPixPos.1 + sc * upd.1, s.mv2SubPixPos.2 + sc * upd.2.1),
         mdMeanDiff := s.mdMeanDiff + upd.2.2 })

/-- Modelled from the spec: the convergence threshold on the squared update (a
small fixed epsilon, a policy constant of the surrounding system). -/
def dConvergenceLimit : Rat :=
  1 / 10000

/-- Modelled from the spec: `IterateSubPixToConvergence` (body not under
src/): repeat single iterations up to `nMaxIts` times, failing on the
out-of-image sentinel and succeeding when the squared update falls below the
epsilon. -/
def IterateSubPixToConvergence (kf : KeyFrame) : PatchFinder → Nat → Bool × PatchFinder
  | s, 0 => (false, s)
  | s, nMaxIts + 1 =>
    let r := IterateSubPix s kf
    if r.1 < 0 then (false, r.2)
    else if r.1 < dConvergenceLimit then (true, r.2)
    else IterateSubPixToConvergence kf r.2 nMaxIts

/-- A small concrete test image with a distinct intensity at every pixel. -/
def demoImg : Img :=
  ⟨10, 10, fun p => p.1 + 10 * p.2⟩

/-- A concrete keyframe whose every level is `demoImg`, with two corner
features at every level. -/
def demoKF : KeyFrame :=
  ⟨fun _ => demoImg, fun _ => [(2, 2), (7, 7)]⟩

/-- The 4-by-4 block of `demoImg` around pixel (2, 2). -/
def demoRows : List (List Int) :=
  (List.range 4).map (fun r => (List.range 4).map (fun c => (c : Int) + 10 * (r : Int)))

/-- A uniform 4-by-4 template (every pixel 7). -/
def flatRows : List (List Int) :=
  List.replicate 4 (List.replicate 4 (7 : Int))

/-- The 3-by-3 identity matrix. -/
def idM3 : Mat3 :=
  ⟨1, 0, 0, 0, 1, 0, 0, 0, 1⟩

/-- A concrete patch-finder state with a 4-pixel template side, as produced by
the constructor before any search. -/
def demoState : PatchFinder :=
  { mnPatchSize := 4, mnMaxSSD := 9999, mnTemplateSum := 0, mnTemplateSumSq := 0,
    mimTemplate := [], mimJacs := [], mm2WarpInverse := ⟨1, 0, 0, 1⟩,
    mnSearchLevel := 0, mm3HInv := none, mv2SubPixPos := (0, 0), mdMeanDiff := 0,
    mirPredictedPos := (0, 0), mv2CoarsePos := (0, 0), mbFound := false,
    mbTemplateBad := false, mpLastTemplateMapPoint := none,
    mm2LastWarpMatrix := ⟨1, 0, 0, 1⟩ }

/-- A concrete map point observed at the corner of `demoImg`, whose template
synthesis needs out-of-bounds source pixels. -/
def edgePoint : MapPoint :=
  ⟨1, demoImg, (0, 0), 0⟩

/-- A concrete state ready for sub-pixel iteration: template and inverse
Hessian present, sub-pixel position at the middle of `demoImg`. -/
def subS : PatchFinder :=
  { demoState with mimTemplate := demoRows, mm3HInv := some idM3, mv2SubPixPos := (4, 4) }

/-- A concrete state holding the uniform template, whose refinement Hessian is
singular. -/
def uniState : PatchFinder :=
  { demoState with mimTemplate := flatRows }

/-- A concrete state whose sub-pixel position sits at the image corner, so
that refinement sampling runs out of the image. -/
def oobS : PatchFinder :=
  { demoState with mimTemplate := demoRows, mm3HInv := some idM3, mv2SubPixPos := (0, 0) }

/-! Helper lemmas about the grid and the fallible map. -/

theorem mem_grid {n : Nat} {p : Nat × Nat} : p ∈ grid n ↔ p.1 < n ∧ p.2 < n := by
  obtain ⟨r, c⟩ := p
  simp only [grid, List.mem_flatMap, List.mem_map, List.mem_range, Prod.mk.injEq]
  constructor
  · rintro ⟨a, ha, b, hb, rfl, rfl⟩
    exact ⟨ha, hb⟩
  · rintro ⟨hr, hc⟩
    exact ⟨r, hr, c, hc, rfl, rfl⟩

theorem tryMap_eq_none {α β : Type} (f : α → Option β) (l : List α) :
    tryMap f l = none ↔ ∃ a ∈ l, f a = none := by
  induction l with
  | nil => simp [tryMap]
  | cons a as ih =>
    constructor
    · intro h
      simp only [tryMap] at h
      split at h
      · next hfa => exact ⟨a, List.mem_cons_self a as, hfa⟩
      · next b hfa =>
        obtain ⟨x, hx, hfx⟩ := ih.mp (Option.map_eq_none'.mp h)
        exact ⟨x, List.mem_cons_of_mem a hx, hfx⟩
    · rintro ⟨x, hx, hfx⟩
      simp only [tryMap]
      rcases List.mem_cons.mp hx with rfl | hx2
      · rw [hfx]
      · cases hfa : f a with
        | none => rfl
        | some b =>
          show (tryMap f as).map (fun bs => b :: bs) = none
          rw [ih.mpr ⟨_, hx2, hfx⟩]
          rfl

theorem tryMap_some_length {α β : Type} (f : α → Option β) (l : List α)
    (bs : List β) (h : tryMap f l = some bs) : bs.length = l.length := by
  induction l generalizing bs with
  | nil => simp [tryMap] at h; simp [h.symm]
  | cons a as ih =>
    simp only [tryMap] at h
    split at h
    · exact absurd h (by simp)
    · next b hfa =>
      cases hrec : tryMap f as with
      | none => rw [hrec] at h; exact absurd h (by simp)
      | some cs =>
        rw [hrec] at h
        simp only [Option.map_some', Option.some.injEq] at h
        subst h
        simp [ih cs hrec]

theorem tryMap_some_mem {α β : Type} (f : α → Option β) (l : List α)
    (bs : List β) (h : tryMap f l = some bs) :
    ∀ b ∈ bs, ∃ a ∈ l, f a = some b := by
  induction l generalizing bs with
  | nil =>
    simp only [tryMap, Option.some.injEq] at h
    subst h
    intro b hb
    exact absurd hb (List.not_mem_nil b)
  | cons a as ih =>
    simp only [tryMap] at h
    split at h
    · exact absurd h (by simp)
    · next b hfa =>
      cases hrec : tryMap f as with
      | none => rw [hrec] at h; exact absurd h (by simp)
      | some cs =>
        rw [hrec] at h
        simp only [Option.map_some', Option.some.injEq] at h
        subst h
        intro x hx
        rcases List.mem_cons.mp hx with rfl | hx2
        · exact ⟨a, List.mem_cons_self a as, hfa⟩
        · obtain ⟨y, hy, hfy⟩ := ih cs hrec x hx2
          exact ⟨y, List.mem_cons_of_mem a hy, hfy⟩

theorem tryMap_of_forall_some {α β : Type} (f : α → Option β) (g : α → β)
    (l : List α) (h : ∀ a ∈ l, f a = some (g a)) : tryMap f l = some (l.map g) := by
  induction l with
  | nil => rfl
  | cons a as ih =>
    simp only [tryMap]
    rw [h a (List.mem_cons_self a as)]
    show (tryMap f as).map (fun bs => g a :: bs) = some ((a :: as).map g)
    rw [ih (fun x hx => h x (List.mem_cons_of_mem a hx))]
    rfl

/-- C10: for every state of the engine, the integer coarse position returned
by `GetCoarsePos` equals the component-wise truncation toward zero (floor for
nonnegative components, ceiling for negative ones — the C `(int)` cast, not
rounding) of the continuous coarse position returned by
`GetCoarsePosAsVector`. -/
theorem getCoarsePos_trunc_of_vector (s : PatchFinder) :
    GetCoarsePos s =
      (if 0 ≤ (GetCoarsePosAsVector s).1 then ⌊(GetCoarsePosAsVector s).1⌋
       else ⌈(GetCoarsePosAsVector s).1⌉,
       if 0 ≤ (GetCoarsePosAsVector s).2 then ⌊(GetCoarsePosAsVector s).2⌋
       else ⌈(GetCoarsePosAsVector s).2⌉) := rfl

/-- C8: for every state of the engine, `GetCov` returns the 2-by-2 identity
scaled by the search level's pixel scale, and its value is unchanged by the
template, the cached sums, the Jacobians, the Hessian inverse, the found and
bad-template flags, and the coarse and sub-pixel results. -/
theorem getCov_scaled_identity (s : PatchFinder) (T : List (List Int))
    (J : List (Rat × Rat)) (H : Option Mat3) (f b : Bool) (cp sp : Rat × Rat)
    (su sq : Int) (md : Rat) :
    (∀ i j : Fin 2, GetCov s i j =
        if i = j then (LevelScale s.mnSearchLevel : Rat) else 0)
    ∧ GetCov { s with mimTemplate := T, mnTemplateSum := su, mnTemplateSumSq := sq,
                      mimJacs := J, mm3HInv := H, mbFound := f, mbTemplateBad := b,
                      mv2CoarsePos := cp, mv2SubPixPos := sp, mdMeanDiff := md }
        = GetCov s := by
  constructor
  · intro i j
    by_cases h : i = j <;> simp [GetCov, Matrix.smul_apply, Matrix.one_apply, h]
  · rfl

theorem zmssdScore_of_match (rows : List (List Int)) (n : Nat) (im : Img)
    (ir : Int × Int) (h : ∀ p ∈ grid n, imPixAt im ir n p = tAt rows p) :
    zmssdScore rows n im ir = 0 := by
  have hmap : (grid n).map (fun p => imPixAt im ir n p)
      = (grid n).map (fun p => tAt rows p) := List.map_congr_left h
  simp only [zmssdScore]
  rw [hmap]
  refine List.sum_eq_zero ?_
  intro x hx
  obtain ⟨p, hp, rfl⟩ := List.mem_map.mp hx
  rw [h p hp]
  ring

theorem zmssdScore_nonneg (rows : List (List Int)) (n : Nat) (im : Img)
    (ir : Int × Int) : 0 ≤ zmssdScore rows n im ir := by
  simp only [zmssdScore]
  refine List.sum_nonneg ?_
  intro x hx
  obtain ⟨p, _, rfl⟩ := List.mem_map.mp hx
  positivity

/-- C6: the zero-mean SSD score of a template against an image patch that is
pixel-for-pixel identical to it is exactly 0. -/
theorem zmssd_self_zero (rows : List (List Int)) (n : Nat) (im : Img) (ir : Int × Int)
    (h : ∀ p ∈ grid n, imPixAt im ir n p = tAt rows p) :
    zmssdScore rows n im ir = 0 :=
  zmssdScore_of_match rows n im ir h

/-- Witness for C6 at a concrete template matching the 4-by-4 patch of
`demoImg` around (2, 2). -/
theorem zmssd_self_zero_witness :
    (∀ p ∈ grid 4, imPixAt demoImg (2, 2) 4 p = tAt demoRows p)
    ∧ zmssdScore demoRows 4 demoImg (2, 2) = 0 :=
  ⟨by decide, zmssd_self_zero demoRows 4 demoImg (2, 2) (by decide)⟩

theorem one_le_four_pow (n : Nat) : (1 : Rat) ≤ 4 ^ n := by
  induction n with
  | zero => norm_num
  | succ k ih => rw [pow_succ]; nlinarith

theorem chooseLevelAux_le (fuel : Nat) : ∀ (d : Rat) (l : Nat),
    chooseLevelAux fuel d l ≤ l + fuel := by
  induction fuel with
  | zero => intro d l; simp [chooseLevelAux]
  | succ k ih =>
    intro d l
    simp only [chooseLevelAux]
    split
    · exact le_trans (ih (d / 4) (l + 1)) (by omega)
    · omega

theorem chooseLevelAux_clamp (fuel : Nat) : ∀ (d : Rat) (l : Nat),
    3 * 4 ^ fuel < d → chooseLevelAux fuel d l = l + fuel := by
  induction fuel with
  | zero => intro d l _; simp [chooseLevelAux]
  | succ k ih =>
    intro d l h
    have h3 : (3 : Rat) < d := by
      have h1 : (3 : Rat) ≤ 3 * 4 ^ (k + 1) := by nlinarith [one_le_four_pow (k + 1)]
      linarith
    have hrec : chooseLevelAux k (d / 4) (l + 1) = (l + 1) + k := by
      refine ih (d / 4) (l + 1) ?_
      rw [pow_succ] at h
      linarith
    simp only [chooseLevelAux, if_pos h3, hrec]
    omega

/-- C2: `CalcSearchLevelAndWarpMatrix` returns the negative sentinel -1
exactly when the warp determinant is non-positive (the degenerate case);
otherwise the returned level lies in [0, maxLevel], and a warp whose natural
scale would require a level beyond `maxLevel` yields `maxLevel` (clamped)
rather than a failure. -/
theorem calcSearchLevel_range (s : PatchFinder) (m2 : Mat2) (maxLevel : Nat) :
    ((CalcSearchLevelAndWarpMatrix s m2 maxLevel).2 = -1 ↔ mat2det m2 ≤ 0)
    ∧ (0 < mat2det m2 →
        0 ≤ (CalcSearchLevelAndWarpMatrix s m2 maxLevel).2
        ∧ (CalcSearchLevelAndWarpMatrix s m2 maxLevel).2 ≤ (maxLevel : Int))
    ∧ ((3 : Rat) * 4 ^ maxLevel < mat2det m2 →
        (CalcSearchLevelAndWarpMatrix s m2 maxLevel).2 = (maxLevel : Int)) := by
  by_cases hd : mat2det m2 ≤ 0
  · refine ⟨?_, ?_, ?_⟩
    · simp [CalcSearchLevelAndWarpMatrix, hd]
    · intro h; linarith
    · intro h
      exfalso
      have hpow : (0 : Rat) < 3 * 4 ^ maxLevel := by positivity
      linarith
  · push_neg at hd
    simp only [CalcSearchLevelAndWarpMatrix, if_neg (not_le.mpr hd)]
    refine ⟨?_, ?_, ?_⟩
    · constructor
      · intro h
        have := Int.natCast_nonneg (chooseLevelAux maxLevel (mat2det m2) 0)
        omega
      · intro h; linarith
    · intro _
      refine ⟨Int.natCast_nonneg _, ?_⟩
      have := chooseLevelAux_le maxLevel (mat2det m2) 0
      exact_mod_cast by omega
    · intro h
      have hc := chooseLevelAux_clamp maxLevel (mat2det m2) 0 h
      simp [hc]

/-- Witness for C2: a warp with determinant 20 and a 2-level pyramid clamps to
the top level 1 (it would naturally need a coarser level). -/
theorem calcSearchLevel_range_witness :
    (3 : Rat) * 4 ^ 1 < mat2det ⟨20, 0, 0, 1⟩
    ∧ (CalcSearchLevelAndWarpMatrix demoState ⟨20, 0, 0, 1⟩ 1).2 = (1 : Int) :=
  ⟨by norm_num [mat2det],
   (calcSearchLevel_range demoState ⟨20, 0, 0, 1⟩ 1).2.2 (by norm_num [mat2det])⟩

theorem setTemplate_warpInverse (s : PatchFinder) (r : Option (List (List Int))) :
    (SetTemplate s r).mm2WarpInverse = s.mm2WarpInverse := by
  cases r <;> rfl

theorem cont_cached (t : PatchFinder) (p : MapPoint)
    (h1 : t.mpLastTemplateMapPoint = some p.id)
    (h2 : t.mm2LastWarpMatrix = t.mm2WarpInverse) :
    MakeTemplateCoarseCont t p = t := by
  unfold MakeTemplateCoarseCont
  rw [if_pos ⟨h1, h2⟩]

theorem cont_sets_cache (t : PatchFinder) (p : MapPoint) :
    (MakeTemplateCoarseCont t p).mpLastTemplateMapPoint = some p.id
    ∧ (MakeTemplateCoarseCont t p).mm2LastWarpMatrix
        = (MakeTemplateCoarseCont t p).mm2WarpInverse := by
  unfold MakeTemplateCoarseCont
  split
  · next h => exact ⟨h.1, h.2⟩
  · next h =>
    refine ⟨rfl, ?_⟩
    have hw : (RefreshTemplateWarped t p).mm2WarpInverse = t.mm2WarpInverse := by
      unfold RefreshTemplateWarped
      exact setTemplate_warpInverse t _
    exact hw.symm

/-- C5: running `MakeTemplateCoarseCont` again after `MakeTemplateCoarse` for
the same unchanged map point leaves the whole state — in particular the
synthesized template, its cached sums, and the chosen search level —
identical: the last-point/last-warp cache reuse never changes the result. -/
theorem makeTemplateCoarseCont_idempotent (s : PatchFinder) (p : MapPoint)
    (m2 : Mat2) (maxLevel : Nat) :
    MakeTemplateCoarseCont (MakeTemplateCoarse s p m2 maxLevel) p
      = MakeTemplateCoarse s p m2 maxLevel := by
  have h := cont_sets_cache (CalcSearchLevelAndWarpMatrix s m2 maxLevel).1 p
  exact cont_cached _ p h.1 h.2

theorem synthRows_eq_none (f : Nat × Nat → Option Int) (n : Nat) :
    synthRows f n = none ↔ ∃ q ∈ grid n, f q = none := by
  unfold synthRows
  rw [tryMap_eq_none]
  constructor
  · rintro ⟨r, hr, hnone⟩
    obtain ⟨c, hc, hfc⟩ := (tryMap_eq_none _ _).mp hnone
    exact ⟨(r, c), mem_grid.mpr ⟨List.mem_range.mp hr, List.mem_range.mp hc⟩, hfc⟩
  · rintro ⟨⟨r, c⟩, hq, hfq⟩
    obtain ⟨hr, hc⟩ := mem_grid.mp hq
    exact ⟨r, List.mem_range.mpr hr,
      (tryMap_eq_none _ _).mpr ⟨c, List.mem_range.mpr hc, hfq⟩⟩

theorem synthRows_some_shape (f : Nat × Nat → Option Int) (n : Nat)
    (rows : List (List Int)) (h : synthRows f n = some rows) :
    rows.length = n ∧ ∀ row ∈ rows, row.length = n := by
  unfold synthRows at h
  refine ⟨?_, ?_⟩
  · have := tryMap_some_length _ _ _ h
    simpa using this
  · intro row hrow
    obtain ⟨r, _, hfr⟩ := tryMap_some_mem _ _ _ h row hrow
    have := tryMap_some_length _ _ _ hfr
    simpa using this

theorem setTemplate_spec (s : PatchFinder) (f : Nat × Nat → Option Int) (n : Nat) :
    ((SetTemplate s (synthRows f n)).mbTemplateBad = true ↔ ∃ q ∈ grid n, f q = none)
    ∧ ((SetTemplate s (synthRows f n)).mbTemplateBad = false →
        (SetTemplate s (synthRows f n)).mimTemplate.length = n
        ∧ (∀ row ∈ (SetTemplate s (synthRows f n)).mimTemplate, row.length = n)
        ∧ (SetTemplate s (synthRows f n)).mnTemplateSum
            = templateSum (SetTemplate s (synthRows f n)).mimTemplate
        ∧ (SetTemplate s (synthRows f n)).mnTemplateSumSq
            = templateSumSq (SetTemplate s (synthRows f n)).mimTemplate)
    ∧ ((SetTemplate s (synthRows f n)).mbTemplateBad = true →
        (SetTemplate s (synthRows f n)).mimTemplate = s.mimTemplate
        ∧ (SetTemplate s (synthRows f n)).mnTemplateSum = s.mnTemplateSum
        ∧ (SetTemplate s (synthRows f n)).mnTemplateSumSq = s.mnTemplateSumSq) := by
  cases hs : synthRows f n with
  | none =>
    refine ⟨iff_of_true rfl ((synthRows_eq_none f n).mp hs), ?_, fun _ => ⟨rfl, rfl, rfl⟩⟩
    intro h
    exact absurd h (by simp [SetTemplate])
  | some rows =>
    refine ⟨?_, fun _ => ?_, fun h => absurd h (by simp [SetTemplate])⟩
    · refine iff_of_false (by simp [SetTemplate]) ?_
      intro hex
      have hnone := (synthRows_eq_none f n).mpr hex
      rw [hs] at hnone
      exact Option.noConfusion hnone
    · obtain ⟨h1, h2⟩ := synthRows_some_shape f n rows hs
      exact ⟨h1, h2, rfl, rfl⟩

/-- C3: for a template-synthesis call (warped mode via the regeneration step
of `MakeTemplateCoarseCont`, or the no-warp mode), the bad-template flag
observable via `TemplateBad` is set if and only if some required source pixel
(including the bilinear neighbors in the warped mode) is unavailable; on
failure the previously stored template data is left untouched (never
republished as fresh), and on success the flag is cleared and the template is
exactly N-by-N with its sum and squared-sum caches filled. -/
theorem template_synthesis_bad_flag (s : PatchFinder) (p : MapPoint) (k : KeyFrame)
    (nLevel : Nat) (irPos : Int × Int) :
    (TemplateBad (RefreshTemplateWarped s p) = true ↔
       ∃ q ∈ grid s.mnPatchSize,
         synthPixelWarp p.srcImg p.irCenter s.mm2WarpInverse s.mnPatchSize q = none)
    ∧ (TemplateBad (RefreshTemplateWarped s p) = false →
         (RefreshTemplateWarped s p).mimTemplate.length = s.mnPatchSize
         ∧ (∀ row ∈ (RefreshTemplateWarped s p).mimTemplate, row.length = s.mnPatchSize)
         ∧ (RefreshTemplateWarped s p).mnTemplateSum
             = templateSum (RefreshTemplateWarped s p).mimTemplate
         ∧ (RefreshTemplateWarped s p).mnTemplateSumSq
             = templateSumSq (RefreshTemplateWarped s p).mimTemplate)
    ∧ (TemplateBad (RefreshTemplateWarped s p) = true →
         (RefreshTemplateWarped s p).mimTemplate = s.mimTemplate)
    ∧ (TemplateBad (MakeTemplateCoarseNoWarpKF s k nLevel irPos) = true ↔
       ∃ q ∈ grid s.mnPatchSize,
         synthPixelNoWarp (k.levels nLevel) irPos s.mnPatchSize q = none)
    ∧ (TemplateBad (MakeTemplateCoarseNoWarpKF s k nLevel irPos) = false →
         (MakeTemplateCoarseNoWarpKF s k nLevel irPos).mimTemplate.length = s.mnPatchSize
         ∧ (∀ row ∈ (MakeTemplateCoarseNoWarpKF s k nLevel irPos).mimTemplate,
              row.length = s.mnPatchSize)
         ∧ (MakeTemplateCoarseNoWarpKF s k nLevel irPos).mnTemplateSum
             = templateSum (MakeTemplateCoarseNoWarpKF s k nLevel irPos).mimTemplate
         ∧ (MakeTemplateCoarseNoWarpKF s k nLevel irPos).mnTemplateSumSq
             = templateSumSq (MakeTemplateCoarseNoWarpKF s k nLevel irPos).mimTemplate)
    ∧ (TemplateBad (MakeTemplateCoarseNoWarpKF s k nLevel irPos) = true →
         (MakeTemplateCoarseNoWarpKF s k nLevel irPos).mimTemplate = s.mimTemplate) := by
  have hw := setTemplate_spec s
    (synthPixelWarp p.srcImg p.irCenter s.mm2WarpInverse s.mnPatchSize) s.mnPatchSize
  have hn := setTemplate_spec { s with mnSearchLevel := nLevel }
    (synthPixelNoWarp (k.levels nLevel) irPos s.mnPatchSize) s.mnPatchSize
  unfold TemplateBad RefreshTemplateWarped MakeTemplateCoarseNoWarpKF
  exact ⟨hw.1, hw.2.1, fun h => (hw.2.2 h).1, hn.1, hn.2.1, fun h => (hn.2.2 h).1⟩

/-- Witness for C3: synthesizing a warped template for a map point observed at
the image corner needs out-of-bounds source pixels and sets the flag. -/
theorem template_synthesis_bad_flag_witness :
    (∃ q ∈ grid demoState.mnPatchSize,
       synthPixelWarp edgePoint.srcImg edgePoint.irCenter demoState.mm2WarpInverse
         demoState.mnPatchSize q = none)
    ∧ TemplateBad (RefreshTemplateWarped demoState edgePoint) = true := by
  have hex : ∃ q ∈ grid demoState.mnPatchSize,
      synthPixelWarp edgePoint.srcImg edgePoint.irCenter demoState.mm2WarpInverse
        demoState.mnPatchSize q = none := by
    refine ⟨(0, 0), by decide, ?_⟩
    norm_num [synthPixelWarp, mat2apply, bilinearSample, demoState, edgePoint, demoImg]
  exact ⟨hex,
    ((template_synthesis_bad_flag demoState edgePoint demoKF 0 (0, 0)).1).mpr hex⟩

/-- C7: a no-warp (identity-warp) template synthesis whose required N-by-N
source block lies fully inside the source level copies that block pixel for
pixel: the template equals the corresponding block of the source keyframe's
pixels. -/
theorem noWarp_template_copies_source (s : PatchFinder) (k : KeyFrame) (nLevel : Nat)
    (irPos : Int × Int)
    (h : ∀ q ∈ grid s.mnPatchSize,
        inImage (k.levels nLevel)
          (irPos.1 + (q.2 : Int) - (s.mnPatchSize / 2 : Int),
           irPos.2 + (q.1 : Int) - (s.mnPatchSize / 2 : Int))) :
    TemplateBad (MakeTemplateCoarseNoWarpKF s k nLevel irPos) = false
    ∧ (MakeTemplateCoarseNoWarpKF s k nLevel irPos).mimTemplate
        = (List.range s.mnPatchSize).map (fun (r : Nat) =>
            (List.range s.mnPatchSize).map (fun (c : Nat) =>
              (k.levels nLevel).pix
                (irPos.1 + (c : Int) - (s.mnPatchSize / 2 : Int),
                 irPos.2 + (r : Int) - (s.mnPatchSize / 2 : Int)))) := by
  have hall : ∀ q ∈ grid s.mnPatchSize,
      synthPixelNoWarp (k.levels nLevel) irPos s.mnPatchSize q
        = some ((k.levels nLevel).pix
            (irPos.1 + (q.2 : Int) - (s.mnPatchSize / 2 : Int),
             irPos.2 + (q.1 : Int) - (s.mnPatchSize / 2 : Int))) := by
    intro q hq
    unfold synthPixelNoWarp
    rw [if_pos (h q hq)]
  have hrows : synthRows (synthPixelNoWarp (k.levels nLevel) irPos s.mnPatchSize)
      s.mnPatchSize
      = some ((List.range s.mnPatchSize).map (fun (r : Nat) =>
          (List.range s.mnPatchSize).map (fun (c : Nat) =>
            (k.levels nLevel).pix
              (irPos.1 + (c : Int) - (s.mnPatchSize / 2 : Int),
               irPos.2 + (r : Int) - (s.mnPatchSize / 2 : Int))))) := by
    unfold synthRows
    refine tryMap_of_forall_some _
      (fun (r : Nat) => (List.range s.mnPatchSize).map (fun (c : Nat) =>
        (k.levels nLevel).pix
          (irPos.1 + (c : Int) - (s.mnPatchSize / 2 : Int),
           irPos.2 + (r : Int) - (s.mnPatchSize / 2 : Int)))) _ ?_
    intro r hr
    refine tryMap_of_forall_some _
      (fun (c : Nat) => (k.levels nLevel).pix
        (irPos.1 + (c : Int) - (s.mnPatchSize / 2 : Int),
         irPos.2 + (r : Int) - (s.mnPatchSize / 2 : Int))) _ ?_
    intro c hc
    exact hall (r, c)
      (mem_grid.mpr ⟨List.mem_range.mp hr, List.mem_range.mp hc⟩)
  unfold MakeTemplateCoarseNoWarpKF
  rw [hrows]
  exact ⟨rfl, rfl⟩

/-- Witness for C7: copying the 4-by-4 block of `demoImg` around (4, 4). -/
theorem noWarp_template_copies_source_witness :
    (∀ q ∈ grid demoState.mnPatchSize,
        inImage (demoKF.levels 0)
          (((4, 4) : Int × Int).1 + (q.2 : Int) - (demoState.mnPatchSize / 2 : Int),
           ((4, 4) : Int × Int).2 + (q.1 : Int) - (demoState.mnPatchSize / 2 : Int)))
    ∧ TemplateBad (MakeTemplateCoarseNoWarpKF demoState demoKF 0 (4, 4)) = false := by
  have h : ∀ q ∈ grid demoState.mnPatchSize,
      inImage (demoKF.levels 0)
        (((4, 4) : Int × Int).1 + (q.2 : Int) - (demoState.mnPatchSize / 2 : Int),
         ((4, 4) : Int × Int).2 + (q.1 : Int) - (demoState.mnPatchSize / 2 : Int)) := by
    decide
  exact ⟨h, (noWarp_template_copies_source demoState demoKF 0 (4, 4) h).1⟩

/-- C9: a singular accumulated Hessian is surfaced by `MakeSubPixTemplate` as
a missing inverse (a refinement precondition failure), and the refinement
driver never runs an iteration with it: `IterateSubPixToConvergence` reports
failure for every iteration budget. -/
theorem singular_hessian_blocks_refinement (s : PatchFinder)
    (h : det3 (hessianOf s.mimTemplate s.mnPatchSize) = 0) :
    (MakeSubPixTemplate s).mm3HInv = none
    ∧ ∀ (kf : KeyFrame) (nMaxIts : Nat),
        (IterateSubPixToConvergence kf (MakeSubPixTemplate s) nMaxIts).1 = false := by
  have hinv : invert3 (hessianOf s.mimTemplate s.mnPatchSize) = none := by
    unfold invert3
    rw [if_pos h]
  have hmm : (MakeSubPixTemplate s).mm3HInv = none := by
    unfold MakeSubPixTemplate
    exact hinv
  refine ⟨hmm, ?_⟩
  intro kf nMaxIts
  cases nMaxIts with
  | zero => rfl
  | succ m =>
    have hiter : IterateSubPix (MakeSubPixTemplate s) kf = (-1, MakeSubPixTemplate s) := by
      unfold IterateSubPix
      rw [hmm]
    simp only [IterateSubPixToConvergence, hiter]
    norm_num

theorem tAt_flat : ∀ p ∈ grid 4, tAt flatRows p = 7 := by decide

theorem jacAt_flat : ∀ p ∈ grid 4, jacAt flatRows 4 p = (0, 0) := by
  intro p hp
  obtain ⟨hp1, hp2⟩ := mem_grid.mp hp
  unfold jacAt
  split
  · next hcond =>
    obtain ⟨h1, h2, h3, h4⟩ := hcond
    rw [tAt_flat (p.1, p.2 + 1) (mem_grid.mpr ⟨by omega, by omega⟩),
        tAt_flat (p.1, p.2 - 1) (mem_grid.mpr ⟨by omega, by omega⟩),
        tAt_flat (p.1 + 1, p.2) (mem_grid.mpr ⟨by omega, by omega⟩),
        tAt_flat (p.1 - 1, p.2) (mem_grid.mpr ⟨by omega, by omega⟩)]
    norm_num
  · rfl

theorem hessFold_zero (rows : List (List Int)) (n : Nat) (l : List (Nat × Nat))
    (h : ∀ p ∈ l, jacAt rows n p = (0, 0)) :
    ∀ init : Mat3,
      l.foldl (fun m p =>
        let j := jacAt rows n p
        (⟨m.m00 + j.1 * j.1, m.m01 + j.1 * j.2, m.m02 + j.1,
          m.m10 + j.2 * j.1, m.m11 + j.2 * j.2, m.m12 + j.2,
          m.m20 + j.1, m.m21 + j.2, m.m22 + 1⟩ : Mat3)) init
      = ⟨init.m00, init.m01, init.m02, init.m10, init.m11, init.m12,
         init.m20, init.m21, init.m22 + (l.length : Rat)⟩ := by
  induction l with
  | nil =>
    intro init
    simp
  | cons p ps ih =>
    intro init
    have hj := h p (List.mem_cons_self p ps)
    simp only [List.foldl_cons, hj]
    rw [ih (fun q hq => h q (List.mem_cons_of_mem p hq))]
    simp only [Mat3.mk.injEq]
    norm_num
    ring

theorem hessianOf_flat : hessianOf flatRows 4 = ⟨0, 0, 0, 0, 0, 0, 0, 0, 16⟩ := by
  unfold hessianOf
  rw [hessFold_zero flatRows 4 (grid 4) jacAt_flat]
  norm_num
  decide

/-- Witness for C9: the uniform 4-by-4 template has a singular Hessian, and
`MakeSubPixTemplate` surfaces the failure as a missing inverse. -/
theorem singular_hessian_blocks_refinement_witness :
    det3 (hessianOf uniState.mimTemplate uniState.mnPatchSize) = 0
    ∧ (MakeSubPixTemplate uniState).mm3HInv = none := by
  have hdet : det3 (hessianOf uniState.mimTemplate uniState.mnPatchSize) = 0 := by
    show det3 (hessianOf flatRows 4) = 0
    rw [hessianOf_flat]
    norm_num [det3]
  exact ⟨hdet, (singular_hessian_blocks_refinement uniState hdet).1⟩

theorem bestCandidate_none_iff (score : Int × Int → Rat) (ok : Int × Int → Bool)
    (l : List (Int × Int)) :
    bestCandidate score ok l = none ↔ ∀ c ∈ l, ok c = false := by
  induction l with
  | nil => simp [bestCandidate]
  | cons c cs ih =>
    simp only [bestCandidate]
    cases hok : ok c with
    | false => simp [hok, ih, List.forall_mem_cons]
    | true =>
      cases hrest : bestCandidate score ok cs with
      | none => simp [hok, hrest, List.forall_mem_cons]
      | some pair =>
        obtain ⟨b, bs⟩ := pair
        simp [hok, hrest, List.forall_mem_cons, ite_eq_iff]

theorem bestCandidate_some_spec (score : Int × Int → Rat) (ok : Int × Int → Bool)
    (l : List (Int × Int)) :
    ∀ (b : Int × Int) (sc : Rat), bestCandidate score ok l = some (b, sc) →
      sc = score b ∧ ok b = true ∧ b ∈ l
      ∧ ∀ c ∈ l, ok c = true → sc ≤ score c := by
  induction l with
  | nil =>
    intro b sc h
    exact absurd h (by simp [bestCandidate])
  | cons c cs ih =>
    intro b sc h
    simp only [bestCandidate] at h
    cases hok : ok c with
    | false =>
      rw [hok] at h
      simp only [Bool.false_eq_true, if_false] at h
      obtain ⟨h1, h2, h3, h4⟩ := ih b sc h
      refine ⟨h1, h2, List.mem_cons_of_mem c h3, ?_⟩
      intro x hx hokx
      rcases List.mem_cons.mp hx with rfl | hx2
      · rw [hok] at hokx
        exact absurd hokx (by simp)
      · exact h4 x hx2 hokx
    | true =>
      rw [hok] at h
      simp only [if_true] at h
      cases hrest : bestCandidate score ok cs with
      | none =>
        rw [hrest] at h
        simp only [Option.some.injEq, Prod.mk.injEq] at h
        obtain ⟨hb, hs⟩ := h
        subst hb
        subst hs
        refine ⟨rfl, hok, List.mem_cons_self c cs, ?_⟩
        intro x hx hokx
        rcases List.mem_cons.mp hx with rfl | hx2
        · exact le_refl _
        · rw [(bestCandidate_none_iff score ok cs).mp hrest x hx2] at hokx
          exact absurd hokx (by simp)
      | some pair =>
        obtain ⟨br, sr⟩ := pair
        rw [hrest] at h
        dsimp only at h
        obtain ⟨hr1, hr2, hr3, hr4⟩ := ih br sr hrest
        by_cases hlt : score c < sr
        · rw [if_pos hlt] at h
          simp only [Option.some.injEq, Prod.mk.injEq] at h
          obtain ⟨hb, hs⟩ := h
          subst hb
          subst hs
          refine ⟨rfl, hok, List.mem_cons_self c cs, ?_⟩
          intro x hx hokx
          rcases List.mem_cons.mp hx with rfl | hx2
          · exact le_refl _
          · exact le_of_lt (lt_of_lt_of_le hlt (hr4 x hx2 hokx))
        · rw [if_neg hlt] at h
          simp only [Option.some.injEq, Prod.mk.injEq] at h
          obtain ⟨hb, hs⟩ := h
          subst hb
          subst hs
          refine ⟨hr1, hr2, List.mem_cons_of_mem c hr3, ?_⟩
          intro x hx hokx
          rcases List.mem_cons.mp hx with rfl | hx2
          · exact not_lt.mp hlt
          · exact hr4 x hx2 hokx

/-- C1: `FindPatchCoarse` reports found exactly when some corner feature of
the keyframe at the search level lies within the (level-converted) radius of
the predicted center and the minimum zero-mean SSD score over those
candidates does not exceed the `mnMaxSSD` ceiling; on success the coarse
position is the minimum-scoring candidate's location converted to level-zero
pixel coordinates. -/
theorem findPatchCoarse_spec (s : PatchFinder) (ir : Int × Int) (kf : KeyFrame)
    (nRange : Nat) :
    ((FindPatchCoarse s ir kf nRange).mbFound = true ↔
      ∃ c ∈ coarseCands s ir kf nRange,
        (∀ d ∈ coarseCands s ir kf nRange,
          coarseScore s kf c ≤ coarseScore s kf d)
        ∧ coarseScore s kf c ≤ (s.mnMaxSSD : Rat))
    ∧ ((FindPatchCoarse s ir kf nRange).mbFound = true →
      ∃ c ∈ coarseCands s ir kf nRange,
        (∀ d ∈ coarseCands s ir kf nRange,
          coarseScore s kf c ≤ coarseScore s kf d)
        ∧ (FindPatchCoarse s ir kf nRange).mv2CoarsePos
            = (((LevelScale s.mnSearchLevel : Int) : Rat) * (c.1 : Rat),
               ((LevelScale s.mnSearchLevel : Int) : Rat) * (c.2 : Rat))) := by
  simp only [FindPatchCoarse]
  cases hbc : bestCandidate (coarseScore s kf) (coarseOK s ir nRange)
      (kf.corners s.mnSearchLevel) with
  | none =>
    have hall := (bestCandidate_none_iff _ _ _).mp hbc
    constructor
    · refine iff_of_false (by simp) ?_
      rintro ⟨c, hc, -, -⟩
      unfold coarseCands at hc
      obtain ⟨hmem, hokc⟩ := List.mem_filter.mp hc
      rw [hall c hmem] at hokc
      exact absurd hokc (by simp)
    · intro h
      exact absurd h (by simp)
  | some pair =>
    obtain ⟨b, bs⟩ := pair
    dsimp only
    obtain ⟨hs1, hs2, hs3, hs4⟩ := bestCandidate_some_spec _ _ _ b bs hbc
    have hbmem : b ∈ coarseCands s ir kf nRange := by
      unfold coarseCands
      exact List.mem_filter.mpr ⟨hs3, hs2⟩
    have hmin : ∀ d ∈ coarseCands s ir kf nRange,
        coarseScore s kf b ≤ coarseScore s kf d := by
      intro d hd
      unfold coarseCands at hd
      obtain ⟨hdmem, hdok⟩ := List.mem_filter.mp hd
      have hbd := hs4 d hdmem hdok
      rw [hs1] at hbd
      exact hbd
    by_cases hle : bs ≤ (s.mnMaxSSD : Rat)
    · rw [if_pos hle]
      have hble : coarseScore s kf b ≤ (s.mnMaxSSD : Rat) := by
        rw [hs1] at hle
        exact hle
      exact ⟨iff_of_true rfl ⟨b, hbmem, hmin, hble⟩,
             fun _ => ⟨b, hbmem, hmin, rfl⟩⟩
    · rw [if_neg hle]
      constructor
      · refine iff_of_false (by simp) ?_
        rintro ⟨c, hc, -, hcle⟩
        unfold coarseCands at hc
        obtain ⟨hcmem, hcok⟩ := List.mem_filter.mp hc
        exact hle (le_trans (hs4 c hcmem hcok) hcle)
      · intro h
        exact absurd h (by simp)

/-- Witness for C1: with the template copied from `demoImg` around (2, 2), the
coarse search around (2, 2) with radius 3 finds the corner (2, 2). -/
theorem findPatchCoarse_spec_witness :
    (FindPatchCoarse subS (2, 2) demoKF 3).mbFound = true := by
  have hmem : ((2, 2) : Int × Int) ∈ coarseCands subS (2, 2) demoKF 3 := by
    unfold coarseCands
    refine List.mem_filter.mpr ⟨by decide, ?_⟩
    unfold coarseOK
    simp only [decide_eq_true_eq]
    norm_num [inRadius, LevelScale, subS, demoState]
  have hzero : coarseScore subS demoKF (2, 2) = 0 := by
    show zmssdScore subS.mimTemplate subS.mnPatchSize
      (demoKF.levels subS.mnSearchLevel) (2, 2) = 0
    exact zmssdScore_of_match _ _ _ _ (by decide)
  have hmin : ∀ d ∈ coarseCands subS (2, 2) demoKF 3,
      coarseScore subS demoKF (2, 2) ≤ coarseScore subS demoKF d := by
    intro d hd
    rw [hzero]
    exact zmssdScore_nonneg _ _ _ _
  have hle : coarseScore subS demoKF (2, 2) ≤ (subS.mnMaxSSD : Rat) := by
    rw [hzero]
    norm_num [subS, demoState]
  exact ((findPatchCoarse_spec subS (2, 2) demoKF 3).1).mpr ⟨(2, 2), hmem, hmin, hle⟩

/-- C4: with a precomputed inverse Hessian, a single `IterateSubPix` step
returns the negative out-of-image sentinel exactly when one of the N-by-N
bilinear samples around the current sub-pixel position is out of bounds;
otherwise it returns the squared magnitude of the positional update (a
non-negative value) and applies the Gauss-Newton update (dx, dy, dMean) to
the position and the running mean difference. -/
theorem iterateSubPix_spec (s : PatchFinder) (kf : KeyFrame) (H : Mat3)
    (hH : s.mm3HInv = some H) :
    ((IterateSubPix s kf).1 < 0 ↔
      ∃ p ∈ grid s.mnPatchSize,
        subPixSample (kf.levels s.mnSearchLevel) (subPixCenter s) s.mnPatchSize p
          = none)
    ∧ ∀ vs, tryMap
          (subPixSample (kf.levels s.mnSearchLevel) (subPixCenter s) s.mnPatchSize)
          (grid s.mnPatchSize) = some vs →
        (IterateSubPix s kf).1
          = (mat3apply H (gradSum s.mimTemplate s.mnPatchSize s.mdMeanDiff vs)).1 ^ 2
            + (mat3apply H (gradSum s.mimTemplate s.mnPatchSize s.mdMeanDiff vs)).2.1 ^ 2
        ∧ 0 ≤ (IterateSubPix s kf).1
        ∧ (IterateSubPix s kf).2.mv2SubPixPos
            = (s.mv2SubPixPos.1 + ((LevelScale s.mnSearchLevel : Int) : Rat)
                 * (mat3apply H (gradSum s.mimTemplate s.mnPatchSize s.mdMeanDiff vs)).1,
               s.mv2SubPixPos.2 + ((LevelScale s.mnSearchLevel : Int) : Rat)
                 * (mat3apply H (gradSum s.mimTemplate s.mnPatchSize s.mdMeanDiff vs)).2.1)
        ∧ (IterateSubPix s kf).2.mdMeanDiff
            = s.mdMeanDiff
              + (mat3apply H (gradSum s.mimTemplate s.mnPatchSize s.mdMeanDiff vs)).2.2 := by
  simp only [IterateSubPix, hH]
  cases htm : tryMap
      (subPixSample (kf.levels s.mnSearchLevel) (subPixCenter s) s.mnPatchSize)
      (grid s.mnPatchSize) with
  | none =>
    constructor
    · exact iff_of_true (by norm_num) ((tryMap_eq_none _ _).mp htm)
    · intro vs hvs
      exact absurd hvs (by simp)
  | some vs0 =>
    dsimp only
    constructor
    · refine iff_of_false (not_lt.mpr (by positivity)) ?_
      rintro ⟨p, hp, hnone⟩
      have hcontra := (tryMap_eq_none _ _).mpr ⟨p, hp, hnone⟩
      rw [htm] at hcontra
      exact Option.noConfusion hcontra
    · intro vs hvs
      simp only [Option.some.injEq] at hvs
      subst hvs
      exact ⟨rfl, by positivity, rfl, rfl⟩

/-- Witness for C4: at the image corner the sampling leaves the image and the
iteration returns the negative sentinel. -/
theorem iterateSubPix_spec_witness :
    oobS.mm3HInv = some idM3 ∧ (IterateSubPix oobS demoKF).1 < 0 := by
  refine ⟨rfl, ?_⟩
  refine ((iterateSubPix_spec oobS demoKF idM3 rfl).1).mpr ⟨(0, 0), by decide, ?_⟩
  norm_num [subPixSample, subPixCenter, bilinearSample, oobS, demoState, demoImg,
    LevelScale]

end PTAMM
